import Mathlib

/-!
Shallow embedding of the symptom-chatbot core from src/chatbot.py.

The embedding covers: the Python string helpers used by the code
(str.lower, str.strip, substring containment, str.split, str.join),
the fuzzywuzzy scorer used by diagnose (utils.full_process,
fuzz.token_sort_ratio with the python-Levenshtein ratio backend,
process.extractOne), the diagnose ranker, get_disease_by_name, the
derived symptom vocabulary, and the /api/chat turn handler as a pure
transition function on a per-user conversation state.

External collaborators are parameters: the spaCy entity extractor
appears as a function String → List String, the disease catalog as a
List Disease, and wall-clock time as a Nat argument.  Python float
scores are modelled by exact rationals ℚ, and Python round by
round-half-to-even on ℚ.  String operations are modelled in ASCII
scope (the catalog data and dialogue tokens the code compares are
ASCII).
-/

namespace HealthChat

/-- Python whitespace (ASCII scope), as used by str.strip and str.split. -/
def pyIsSpace (c : Char) : Bool :=
  c.toNat = 32 || c.toNat = 9 || c.toNat = 10 || c.toNat = 13 || c.toNat = 11 || c.toNat = 12

/-- Python str.lower on one character (ASCII scope); this is exactly
core Char.toLower. -/
def lowerChar (c : Char) : Char := Char.toLower c

/-- Python str.lower (ASCII scope). -/
def pyLower (s : String) : String := String.mk (s.data.map lowerChar)

/-- Python str.strip on a character list: drop whitespace from both ends. -/
def stripL (l : List Char) : List Char :=
  ((l.dropWhile pyIsSpace).reverse.dropWhile pyIsSpace).reverse

/-- Python str.strip with no argument. -/
def pyStrip (s : String) : String := String.mk (stripL s.data)

/-- normalize from chatbot.py: text.lower().strip(). -/
def normalize (text : String) : String := pyStrip (pyLower text)

/-- Does the list start with the given pattern (character-wise)? -/
def startsWithL : List Char → List Char → Bool
  | [], _ => true
  | _ :: _, [] => false
  | a :: as, b :: bs => if a = b then startsWithL as bs else false

/-- Python substring test on character lists: does the second list
contain the first as a contiguous segment? -/
def hasSub (sub : List Char) : List Char → Bool
  | [] => sub.isEmpty
  | c :: t => startsWithL sub (c :: t) || hasSub sub (t)

/-- strIncludes hay sub models the Python expression `sub in hay`. -/
def strIncludes (hay sub : String) : Bool := hasSub sub.data hay.data

/-- Python sep.join(xs). -/
def pyJoin (sep : String) : List String → String
  | [] => ""
  | [x] => x
  | x :: y :: xs => x ++ sep ++ pyJoin sep (y :: xs)

/-- Helper for str.split(): accumulate the current word (reversed). -/
def wordsAux : List Char → List Char → List String
  | [], acc => if acc.isEmpty then [] else [String.mk acc.reverse]
  | c :: cs, acc =>
    if pyIsSpace c then
      if acc.isEmpty then wordsAux cs [] else String.mk acc.reverse :: wordsAux cs []
    else wordsAux cs (c :: acc)

/-- Python str.split() with no argument: split on whitespace runs. -/
def pyWords (s : String) : List String := wordsAux s.data []

/-- Code-point lexicographic order on character lists (Python string <=). -/
def lexLe : List Char → List Char → Bool
  | [], _ => true
  | _ :: _, [] => false
  | a :: as, b :: bs =>
    if a.toNat < b.toNat then true
    else if b.toNat < a.toNat then false
    else lexLe as bs

/-- Insertion step for sorting token lists ascending. -/
def insertAsc (x : String) : List String → List String
  | [] => [x]
  | y :: ys => if lexLe x.data y.data then x :: y :: ys else y :: insertAsc x ys

/-- Python sorted() on strings (lexicographic). -/
def sortAsc (l : List String) : List String := l.foldr insertAsc []

/-- fuzzywuzzy utils.full_process: replace every character that is not
alphanumeric or an underscore by a space, lower-case, strip. -/
def processChar (c : Char) : Char :=
  if c.isAlphanum || c = '_' then lowerChar c else ' '

/-- fuzzywuzzy utils.full_process on a string. -/
def fullProcess (s : String) : String :=
  pyStrip (String.mk (s.data.map processChar))

/-- Longest common subsequence length, with explicit fuel so that the
recursion is structural (the fuel never runs out when it starts at the
sum of the lengths, since every call shortens the lists). -/
def lcsFuel : Nat → List Char → List Char → Nat
  | 0, _, _ => 0
  | _ + 1, [], _ => 0
  | _ + 1, _ :: _, [] => 0
  | fuel + 1, a :: as, b :: bs =>
    if a = b then lcsFuel fuel as bs + 1
    else max (lcsFuel fuel as (b :: bs)) (lcsFuel fuel (a :: as) bs)

/-- Longest common subsequence length.  The python-Levenshtein ratio
backend computes (m+n-dist)/(m+n) where dist is the edit distance with
substitution cost 2, and that distance equals m + n - 2*lcs. -/
def lcs (l₁ l₂ : List Char) : Nat := lcsFuel (l₁.length + l₂.length) l₁ l₂

/-- Python int(round(num/den)) for den > 0: round half to even. -/
def intr (num den : Nat) : Nat :=
  let q := num / den
  let r := num % den
  if 2 * r < den then q
  else if den < 2 * r then q + 1
  else if q % 2 = 0 then q else q + 1

/-- fuzz.ratio with the python-Levenshtein backend:
round(100 * 2*lcs/(m+n)), and 0 when either side is empty. -/
def fuzzRatio (a b : String) : Nat :=
  if a.data.isEmpty || b.data.isEmpty then 0
  else intr (200 * lcs a.data b.data) (a.data.length + b.data.length)

/-- fuzz._process_and_sort: full_process, split into tokens, sort them,
join with single spaces, strip. -/
def tokenSortJoin (s : String) : String :=
  pyStrip (pyJoin " " (sortAsc (pyWords (fullProcess s))))

/-- fuzz.token_sort_ratio. -/
def tokenSortRatio (a b : String) : Nat :=
  fuzzRatio (tokenSortJoin a) (tokenSortJoin b)

/-- process.extractOne with scorer=fuzz.token_sort_ratio: the query is
pre-processed with full_process, every choice is scored, and the first
choice attaining the maximal score is returned with its score; none on
an empty choice list. -/
def extractOne (query : String) (choices : List String) : Option (String × Nat) :=
  match choices with
  | [] => none
  | c :: cs =>
    some (cs.foldl
      (fun best ch =>
        let sc := tokenSortRatio (fullProcess query) ch
        if best.2 < sc then (ch, sc) else best)
      (c, tokenSortRatio (fullProcess query) c))

/-- Disease record from diseases.json, with the fields the core reads.
Optional fields that the code reads with .get defaults are Options. -/
structure Disease where
  name : String
  symptoms : List String
  remedies : List String
  prevention : Option String
deriving DecidableEq

/-- Conversation stage stored in USER_STAGE. -/
inductive Stage where
  | diagnosis
  | ask_remedies
  | ask_prevention
  | done
deriving DecidableEq

/-- One ranked result of diagnose: the disease record (the Python code
spreads its fields into the result dict), its catalog position, the
rounded composite score and matched symptom names. -/
structure Candidate where
  disease : Disease
  idx : Nat
  score : ℚ
  matched : List String
deriving DecidableEq

/-- One USER_HISTORY record appended on a successful diagnosis. -/
structure LogEntry where
  ts : Nat
  input : String
  extracted : List String
  predictions : List (String × ℚ)
  engine : String
deriving DecidableEq

/-- Per-user conversation state: USER_STAGE, USER_STATE (last disease),
USER_CONTEXTS (role/content messages) and USER_HISTORY. -/
structure ConvState where
  stage : Stage
  lastDisease : Option String
  ctx : List (String × String)
  histLog : List LogEntry
deriving DecidableEq

/-- Floor of a rational number. -/
def ratFloor (q : ℚ) : ℤ := Int.fdiv q.num q.den

/-- Python round to the nearest integer, half to even. -/
def roundHalfEven (q : ℚ) : ℤ :=
  let f := ratFloor q
  if q - (f : ℚ) < 1/2 then f
  else if (1 : ℚ)/2 < q - (f : ℚ) then f + 1
  else if f % 2 = 0 then f else f + 1

/-- Python round(x, 2). -/
def roundTo2 (q : ℚ) : ℚ := (roundHalfEven (q * 100) : ℚ) / 100

/-- One user symptom against one disease's lowered symptom list: the
best fuzzy match, kept only when it scores at least 60
(chatbot.py line 52: `if match and match[1] >= 60`). -/
def scoreOne (dsyms : List String) (u : String) : Option (String × String × Nat) :=
  match extractOne u dsyms with
  | some m => if 60 ≤ m.2 then some (u, m.1, m.2) else none
  | none => none

/-- The candidate diagnose builds for the disease at catalog index i:
matched symptom scores, composite score with the ≥3-matches boost,
rounded to 2 decimals; none when no symptom matched. -/
def candidateFor (i : Nat) (d : Disease) (symptoms : List String) : Option Candidate :=
  let matched := symptoms.filterMap (scoreOne (d.symptoms.map pyLower))
  if matched.length = 0 then none
  else
    let total : ℚ := (matched.map (fun m => ((m.2.2 : ℚ)))).sum
    let base : ℚ := (matched.length : ℚ) * 10 + (total / (matched.length : ℚ)) / 10
    let boosted : ℚ := if 3 ≤ matched.length then base + 15 else base
    some { disease := d, idx := i, score := roundTo2 boosted,
           matched := matched.map (fun m => m.2.1) }

/-- The unsorted results list of diagnose, tagged with catalog indices. -/
def diagAux (symptoms : List String) : Nat → List Disease → List Candidate
  | _, [] => []
  | i, d :: ds =>
    match candidateFor i d symptoms with
    | some c => c :: diagAux symptoms (i + 1) ds
    | none => diagAux symptoms (i + 1) ds

/-- Stable descending insertion by score; an earlier element stays in
front of later elements with the same score. -/
def insertDesc (x : Candidate) : List Candidate → List Candidate
  | [] => [x]
  | y :: ys => if y.score ≤ x.score then x :: y :: ys else y :: insertDesc x ys

/-- Models results.sort(key=lambda x: x["score"], reverse=True), which
is a stable descending sort. -/
def sortDesc (l : List Candidate) : List Candidate := l.foldr insertDesc []

/-- diagnose from chatbot.py. -/
def diagnose (catalog : List Disease) (symptoms : List String) (topK : Nat) :
    List Candidate :=
  (sortDesc (diagAux symptoms 0 catalog)).take topK

/-- get_disease_by_name from chatbot.py: the first catalog disease whose
normalized name and the normalized query are in a substring relation
(either direction). -/
def get_disease_by_name (catalog : List Disease) (name : String) : Option Disease :=
  catalog.find? (fun d =>
    strIncludes (normalize name) (normalize d.name)
      || strIncludes (normalize d.name) (normalize name))

/-- COMMON_SYMPTOMS from chatbot.py line 28: the deduplicated lowered
symptom vocabulary derived from the catalog. -/
def vocabulary (catalog : List Disease) : List String :=
  ((catalog.map (fun d => d.symptoms.map pyLower)).flatten).dedup

/-- The affirmative tokens recognized by the dialogue. -/
def affirmatives : List String := ["yes", "yeah", "yup", "ok", "okay"]

/-- The remedies disclosure reply. -/
def remediesText (info : Disease) : String :=
  "🩺 Remedies for " ++ info.name ++ ":\n"
    ++ pyJoin "\n" (info.remedies.map (fun r => "- " ++ r))
    ++ "\n\nWould you like prevention tips for " ++ info.name ++ "?"

/-- The prevention disclosure reply. -/
def preventionText (info : Disease) : String :=
  "🛡️ Prevention for " ++ info.name ++ ":\n" ++ info.prevention.getD "Not specified"

/-- The successful-diagnosis reply. -/
def diagnosisText (top : Candidate) : String :=
  "Based on your symptoms, you may have **" ++ top.disease.name
    ++ "**.\nWould you like remedies for " ++ top.disease.name ++ "?"

/-- The direct disease-mention reply. -/
def mentionText (info : Disease) : String :=
  "You mentioned **" ++ info.name ++ "**. Would you like remedies for it?"

/-- Reply to an empty input. -/
def emptyPrompt : String := "Please describe how you're feeling."

/-- Reply when nothing could be diagnosed. -/
def noDetectPrompt : String :=
  "I couldn't detect enough symptoms. Could you describe how you're feeling in more detail?"

/-- The ask_remedies affirmative branch of chat (lines 114-125). -/
def remedyStep (catalog : List Disease) (s1 : ConvState) (stage : Stage)
    (last : Option String) (userInput : String) : Option (ConvState × String) :=
  if stage = Stage.ask_remedies ∧ userInput ∈ affirmatives then
    match last with
    | some l =>
      match get_disease_by_name catalog l with
      | some info =>
        some ({ s1 with
                stage := Stage.ask_prevention
                ctx := s1.ctx ++ [("assistant", remediesText info)] }, remediesText info)
      | none => none
    | none => none
  else none

/-- The ask_prevention affirmative branch of chat (lines 127-134). -/
def preventionStep (catalog : List Disease) (s1 : ConvState) (stage : Stage)
    (last : Option String) (userInput : String) : Option (ConvState × String) :=
  if stage = Stage.ask_prevention ∧ userInput ∈ affirmatives then
    match last with
    | some l =>
      match get_disease_by_name catalog l with
      | some info =>
        some ({ s1 with
                stage := Stage.done
                ctx := s1.ctx ++ [("assistant", preventionText info)] }, preventionText info)
      | none => none
    | none => none
  else none

/-- The ranking branch of chat (lines 138-156): runs only when at least
2 symptoms were extracted and the ranker returns a candidate. -/
def rankStep (diag : List String → List Candidate) (s1 : ConvState) (ts : Nat)
    (userInput : String) (symptoms : List String) : Option (ConvState × String) :=
  if 2 ≤ symptoms.length then
    match diag symptoms with
    | [] => none
    | top :: rest =>
      some ({ s1 with
              stage := Stage.ask_remedies
              lastDisease := some top.disease.name
              histLog := s1.histLog ++ [{
                ts := ts
                input := userInput
                extracted := symptoms
                predictions := (top :: rest).map (fun c => (c.disease.name, c.score))
                engine := "Local NER" }]
              ctx := s1.ctx ++ [("assistant", diagnosisText top)] }, diagnosisText top)
  else none

/-- The direct disease-mention scan of chat (lines 158-166). -/
def nameScan (scan : List Disease) (catalog : List Disease) (userInput : String) :
    Option Disease :=
  match scan with
  | [] => none
  | d :: ds =>
    if strIncludes (normalize userInput) (normalize d.name) then
      match get_disease_by_name catalog d.name with
      | some info => some info
      | none => nameScan ds catalog userInput
    else nameScan ds catalog userInput

/-- The /api/chat handler for one user turn (chatbot.py lines 93-171),
with the ranking function and the entity extractor as parameters.
Returns the updated conversation state and the reply string. -/
def chatTurnWith (catalog : List Disease) (diag : List String → List Candidate)
    (extract : String → List String) (ts : Nat) (s : ConvState) (rawInput : String) :
    ConvState × String :=
  let userInput := pyLower (pyStrip rawInput)
  if userInput = "" then (s, emptyPrompt)
  else
    let s1 : ConvState := { s with ctx := s.ctx ++ [("user", userInput)] }
    match remedyStep catalog s1 s.stage s.lastDisease userInput with
    | some out => out
    | none =>
      match preventionStep catalog s1 s.stage s.lastDisease userInput with
      | some out => out
      | none =>
        match rankStep diag s1 ts userInput (extract userInput) with
        | some out => out
        | none =>
          match nameScan catalog catalog userInput with
          | some info =>
            ({ s1 with
               stage := Stage.ask_remedies
               lastDisease := some info.name
               ctx := s1.ctx ++ [("assistant", mentionText info)] }, mentionText info)
          | none =>
            ({ s1 with
               stage := Stage.diagnosis
               ctx := s1.ctx ++ [("assistant", noDetectPrompt)] }, noDetectPrompt)

/-- The turn handler with the real ranker (diagnose with top_k = 3). -/
def chatTurn (catalog : List Disease) (extract : String → List String) (ts : Nat)
    (s : ConvState) (rawInput : String) : ConvState × String :=
  chatTurnWith catalog (fun syms => diagnose catalog syms 3) extract ts s rawInput

/-! Concrete sample data used by witnesses and counterexamples. -/

/-- A one-symptom disease whose symptom scores 67 against the query "abc". -/
def dOne : Disease := { name := "d1", symptoms := ["abcdef"], remedies := [], prevention := none }

/-- A flu record as in the spec scenarios. -/
def dFlu : Disease :=
  { name := "Flu", symptoms := ["fever", "cough", "fatigue"]
    remedies := ["drink water", "rest well"], prevention := some "wash hands" }

/-- An entity extractor that finds nothing. -/
def extractNone : String → List String := fun _ => []

/-- A fresh conversation state. -/
def freshState : ConvState :=
  { stage := Stage.diagnosis, lastDisease := none, ctx := [], histLog := [] }

/-! Ordering facts about the stable descending sort used by diagnose. -/

/-- Strict ranking order: either strictly larger score, or equal score
and earlier catalog index. -/
def rankedBefore (a b : Candidate) : Prop :=
  b.score < a.score ∨ (a.score = b.score ∧ a.idx < b.idx)

theorem mem_insertDesc {z x : Candidate} {l : List Candidate} :
    z ∈ insertDesc x l ↔ z = x ∨ z ∈ l := by
  induction l with
  | nil => simp [insertDesc]
  | cons y ys ih =>
    by_cases h : y.score ≤ x.score
    · rw [insertDesc, if_pos h]
      simp [List.mem_cons]
    · rw [insertDesc, if_neg h]
      simp only [List.mem_cons, ih]
      tauto

theorem pairwise_insertDesc {x : Candidate} {l : List Candidate}
    (h1 : ∀ y ∈ l, x.idx < y.idx) (h2 : l.Pairwise rankedBefore) :
    (insertDesc x l).Pairwise rankedBefore := by
  induction l with
  | nil => simp [insertDesc]
  | cons y ys ih =>
    rcases List.pairwise_cons.mp h2 with ⟨hy, hys⟩
    by_cases h : y.score ≤ x.score
    · rw [insertDesc, if_pos h]
      refine List.pairwise_cons.mpr ⟨?_, h2⟩
      intro z hz
      rcases List.mem_cons.mp hz with rfl | hz
      · rcases lt_or_eq_of_le h with hlt | heq
        · exact Or.inl hlt
        · exact Or.inr ⟨heq.symm, h1 z (List.mem_cons_self z ys)⟩
      · have hyz := hy z hz
        have hzy : z.score ≤ y.score := by
          rcases hyz with hlt | ⟨heq, _⟩
          · exact le_of_lt hlt
          · exact le_of_eq heq.symm
        have hzx : z.score ≤ x.score := le_trans hzy h
        rcases lt_or_eq_of_le hzx with hlt | heq
        · exact Or.inl hlt
        · exact Or.inr ⟨heq.symm, h1 z (List.mem_cons_of_mem y hz)⟩
    · rw [insertDesc, if_neg h]
      refine List.pairwise_cons.mpr ⟨?_, ?_⟩
      · intro z hz
        rcases mem_insertDesc.mp hz with rfl | hz
        · exact Or.inl (lt_of_not_le h)
        · exact hy z hz
      · exact ih (fun y hy => h1 y (List.mem_cons_of_mem _ hy)) hys

theorem mem_sortDesc {z : Candidate} {l : List Candidate} :
    z ∈ sortDesc l ↔ z ∈ l := by
  induction l with
  | nil => simp [sortDesc]
  | cons x xs ih =>
    show z ∈ insertDesc x (sortDesc xs) ↔ _
    rw [mem_insertDesc, ih]
    simp

theorem pairwise_sortDesc {l : List Candidate}
    (h : l.Pairwise (fun a b => a.idx < b.idx)) :
    (sortDesc l).Pairwise rankedBefore := by
  induction l with
  | nil => simp [sortDesc]
  | cons x xs ih =>
    rcases List.pairwise_cons.mp h with ⟨hx, hxs⟩
    show (insertDesc x (sortDesc xs)).Pairwise rankedBefore
    exact pairwise_insertDesc (fun y hy => hx y (mem_sortDesc.mp hy)) (ih hxs)

/-! Facts about candidateFor and diagAux. -/

/-- The per-symptom best-match scores diagnose keeps for a disease:
one score per user symptom that has a best match scoring at least 60. -/
def diseaseScores (d : Disease) (symptoms : List String) : List Nat :=
  (symptoms.filterMap (scoreOne (d.symptoms.map pyLower))).map (fun m => m.2.2)

theorem scoreOne_score_ge {dsyms : List String} {u : String}
    {m : String × String × Nat} (h : scoreOne dsyms u = some m) : 60 ≤ m.2.2 := by
  unfold scoreOne at h
  rcases hx : extractOne u dsyms with _ | mm
  · rw [hx] at h
    exact absurd h (by simp)
  · rw [hx] at h
    dsimp only at h
    by_cases h60 : 60 ≤ mm.2
    · rw [if_pos h60] at h
      cases h
      exact h60
    · rw [if_neg h60] at h
      exact absurd h (by simp)

theorem candidateFor_fields {i : Nat} {d : Disease} {symptoms : List String}
    {c : Candidate} (h : candidateFor i d symptoms = some c) :
    c.disease = d ∧ c.idx = i := by
  unfold candidateFor at h
  by_cases h0 : (symptoms.filterMap (scoreOne (d.symptoms.map pyLower))).length = 0
  · rw [if_pos h0] at h
    exact absurd h (by simp)
  · rw [if_neg h0] at h
    cases h
    exact ⟨rfl, rfl⟩

theorem candidateFor_symptoms_ne {i : Nat} {d : Disease} {symptoms : List String}
    {c : Candidate} (h : candidateFor i d symptoms = some c) : d.symptoms ≠ [] := by
  intro hnil
  unfold candidateFor at h
  have hmap : d.symptoms.map pyLower = [] := by rw [hnil]; rfl
  have hmatched : symptoms.filterMap (scoreOne (d.symptoms.map pyLower)) = [] := by
    rw [List.filterMap_eq_nil_iff]
    intro u _
    rw [hmap]
    rfl
  rw [hmatched] at h
  simp at h

theorem candidateFor_score {i : Nat} {d : Disease} {symptoms : List String}
    {c : Candidate} (h : candidateFor i d symptoms = some c) :
    diseaseScores d symptoms ≠ []
      ∧ c.score = roundTo2
          (((diseaseScores d symptoms).length : ℚ) * 10
            + (((diseaseScores d symptoms).map (fun sc : Nat => (sc : ℚ))).sum
                / ((diseaseScores d symptoms).length : ℚ)) / 10
            + (if 3 ≤ (diseaseScores d symptoms).length then (15 : ℚ) else 0)) := by
  unfold candidateFor at h
  set matched := symptoms.filterMap (scoreOne (d.symptoms.map pyLower)) with hm
  by_cases h0 : matched.length = 0
  · rw [if_pos h0] at h
    exact absurd h (by simp)
  · rw [if_neg h0] at h
    have hlen : (diseaseScores d symptoms).length = matched.length := by
      rw [diseaseScores, ← hm, List.length_map]
    have hsum : ((diseaseScores d symptoms).map (fun sc : Nat => (sc : ℚ))).sum
        = (matched.map (fun m => ((m.2.2 : ℚ)))).sum := by
      simp only [diseaseScores, ← hm, List.map_map]
      rfl
    constructor
    · intro hnil
      rw [diseaseScores, ← hm] at hnil
      exact h0 (by rw [← List.length_map matched (fun m => m.2.2), hnil]; rfl)
    · cases h
      rw [hlen, hsum]
      by_cases h3 : 3 ≤ matched.length
      · rw [if_pos h3, if_pos h3]
      · rw [if_neg h3, if_neg h3, add_zero]

theorem candidateFor_scores_ge {d : Disease} {symptoms : List String} :
    ∀ sc ∈ diseaseScores d symptoms, 60 ≤ sc := by
  intro sc hsc
  rw [diseaseScores] at hsc
  rcases List.mem_map.mp hsc with ⟨m, hm, rfl⟩
  rcases List.mem_filterMap.mp hm with ⟨u, _, hu⟩
  exact scoreOne_score_ge hu

theorem diagAux_from_candidate {c : Candidate} {symptoms : List String} :
    ∀ {i : Nat} {ds : List Disease}, c ∈ diagAux symptoms i ds →
      ∃ j d, ds[j]? = some d ∧ candidateFor (i + j) d symptoms = some c := by
  intro i ds
  induction ds generalizing i with
  | nil => intro h; exact absurd h (by simp [diagAux])
  | cons d ds ih =>
    intro h
    rw [diagAux] at h
    rcases hc : candidateFor i d symptoms with _ | c0
    · rw [hc] at h
      rcases ih h with ⟨j, d', hj, hcf⟩
      refine ⟨j + 1, d', by simpa using hj, ?_⟩
      have hh : i + (j + 1) = i + 1 + j := by omega
      rw [hh]
      exact hcf
    · rw [hc] at h
      rcases List.mem_cons.mp h with rfl | h
      · exact ⟨0, d, by simp, by simpa using hc⟩
      · rcases ih h with ⟨j, d', hj, hcf⟩
        refine ⟨j + 1, d', by simpa using hj, ?_⟩
        have hh : i + (j + 1) = i + 1 + j := by omega
        rw [hh]
        exact hcf

theorem diagAux_idx_ge {symptoms : List String} :
    ∀ {i : Nat} {ds : List Disease} {c : Candidate}, c ∈ diagAux symptoms i ds → i ≤ c.idx := by
  intro i ds
  induction ds generalizing i with
  | nil => intro c h; exact absurd h (by simp [diagAux])
  | cons d ds ih =>
    intro c h
    rw [diagAux] at h
    rcases hc : candidateFor i d symptoms with _ | c0
    · rw [hc] at h
      exact le_trans (Nat.le_succ i) (ih h)
    · rw [hc] at h
      rcases List.mem_cons.mp h with rfl | h
      · exact le_of_eq (candidateFor_fields hc).2.symm
      · exact le_trans (Nat.le_succ i) (ih h)

theorem diagAux_pairwise_idx {symptoms : List String} :
    ∀ {i : Nat} {ds : List Disease},
      (diagAux symptoms i ds).Pairwise (fun a b => a.idx < b.idx) := by
  intro i ds
  induction ds generalizing i with
  | nil => simp [diagAux]
  | cons d ds ih =>
    rw [diagAux]
    rcases hc : candidateFor i d symptoms with _ | c0
    · exact ih
    · refine List.pairwise_cons.mpr ⟨?_, ih⟩
      intro b hb
      have hge : i + 1 ≤ b.idx := diagAux_idx_ge hb
      have : c0.idx = i := (candidateFor_fields hc).2
      omega

theorem mem_diagnose {catalog : List Disease} {symptoms : List String} {topK : Nat}
    {c : Candidate} (h : c ∈ diagnose catalog symptoms topK) :
    ∃ j d, catalog[j]? = some d ∧ candidateFor j d symptoms = some c := by
  have h1 : c ∈ diagAux symptoms 0 catalog :=
    mem_sortDesc.mp (List.mem_of_mem_take h)
  rcases diagAux_from_candidate h1 with ⟨j, d, hj, hcf⟩
  rw [Nat.zero_add] at hcf
  exact ⟨j, d, hj, hcf⟩

theorem diagnose_disease_mem {catalog : List Disease} {symptoms : List String}
    {topK : Nat} {c : Candidate} (h : c ∈ diagnose catalog symptoms topK) :
    c.disease ∈ catalog := by
  rcases mem_diagnose h with ⟨j, d, hj, hcf⟩
  rw [(candidateFor_fields hcf).1]
  exact List.getElem?_mem hj

/-- The composite score exactly as claim C1 words it: goodMatches counts
the per-symptom best scores at or above 70, avgScore averages ALL
per-symptom best scores (0 when there are none), composite is
goodMatches * 10 + avgScore / 10, plus 15 when goodMatches ≥ 3. -/
def c1ClaimScore (d : Disease) (symptoms : List String) : ℚ :=
  let scores := symptoms.filterMap
    (fun u => (extractOne u (d.symptoms.map pyLower)).map (fun m => m.2))
  let good := (scores.filter (fun sc => 70 ≤ sc)).length
  let avg : ℚ :=
    if scores.length = 0 then 0
    else ((scores.map (fun sc : Nat => (sc : ℚ))).sum / (scores.length : ℚ))
  (good : ℚ) * 10 + avg / 10 + (if 3 ≤ good then (15 : ℚ) else 0)

unseal Rat.mul Rat.add Rat.inv Rat.sub in
/-- Claim C1 as stated is false on the code: against the symptom set
["abc", "zz"] and a catalog with the single disease dOne (one symptom
"abcdef"), the per-symptom best scores are 67 and 0, so the claimed
formula (threshold 70, average over all scores) yields 67/20 = 3.35,
while diagnose emits the composite 167/10 = 16.7 (threshold 60, average
over kept scores only). -/
theorem composite_score_claim70_false :
    (diagnose [dOne] ["abc", "zz"] 3).map (fun c => c.score) = [(167 : ℚ)/10]
      ∧ c1ClaimScore dOne ["abc", "zz"] = (67 : ℚ)/20
      ∧ ((167 : ℚ)/10 ≠ (67 : ℚ)/20) := by
  refine ⟨?_, ?_, ?_⟩ <;> decide

/-- Claim C1, corrected to what diagnose computes: every emitted
candidate's composite score is
matches * 10 + (sum of kept scores / matches) / 10 (+15 when
matches ≥ 3), rounded to 2 decimals, where the kept scores are the
per-symptom best-match scores that reach 60 (lower scores are dropped
from both the count and the average). -/
theorem composite_score_uses_threshold_60
    (catalog : List Disease) (symptoms : List String) (topK : Nat) (c : Candidate)
    (h : c ∈ diagnose catalog symptoms topK) :
    diseaseScores c.disease symptoms ≠ []
      ∧ (∀ sc ∈ diseaseScores c.disease symptoms, 60 ≤ sc)
      ∧ c.score = roundTo2
          (((diseaseScores c.disease symptoms).length : ℚ) * 10
            + (((diseaseScores c.disease symptoms).map (fun sc : Nat => (sc : ℚ))).sum
                / ((diseaseScores c.disease symptoms).length : ℚ)) / 10
            + (if 3 ≤ (diseaseScores c.disease symptoms).length then (15 : ℚ) else 0)) := by
  rcases mem_diagnose h with ⟨j, d, hj, hcf⟩
  have hd : c.disease = d := (candidateFor_fields hcf).1
  rcases candidateFor_score hcf with ⟨hne, hs⟩
  subst hd
  exact ⟨hne, candidateFor_scores_ge, hs⟩

/-- The candidate diagnose emits for dOne against ["abc"]. -/
def cOne : Candidate :=
  { disease := dOne, idx := 0, score := (167 : ℚ)/10, matched := ["abcdef"] }

unseal Rat.mul Rat.add Rat.inv Rat.sub in
theorem composite_score_uses_threshold_60_witness :
    cOne ∈ diagnose [dOne] ["abc"] 3
      ∧ (diseaseScores cOne.disease ["abc"] ≠ []
        ∧ (∀ sc ∈ diseaseScores cOne.disease ["abc"], 60 ≤ sc)
        ∧ cOne.score = roundTo2
            (((diseaseScores cOne.disease ["abc"]).length : ℚ) * 10
              + (((diseaseScores cOne.disease ["abc"]).map (fun sc : Nat => (sc : ℚ))).sum
                  / ((diseaseScores cOne.disease ["abc"]).length : ℚ)) / 10
              + (if 3 ≤ (diseaseScores cOne.disease ["abc"]).length then (15 : ℚ) else 0))) :=
  ⟨by decide, composite_score_uses_threshold_60 [dOne] ["abc"] 3 cOne (by decide)⟩

/-- Claim C2: diagnose output is sorted non-increasing by composite
score, ties keep catalog order (strictly increasing catalog indices,
each index pointing at the candidate's disease), the output has at most
topK entries, and every emitted candidate's disease has a non-empty
symptom list. -/
theorem rank_sorted_topk_nonempty (catalog : List Disease) (symptoms : List String)
    (topK : Nat) :
    (diagnose catalog symptoms topK).Pairwise (fun a b => b.score ≤ a.score)
      ∧ (diagnose catalog symptoms topK).Pairwise rankedBefore
      ∧ (diagnose catalog symptoms topK).length ≤ topK
      ∧ ∀ c ∈ diagnose catalog symptoms topK,
          catalog[c.idx]? = some c.disease ∧ c.disease.symptoms ≠ [] := by
  have hpair : (sortDesc (diagAux symptoms 0 catalog)).Pairwise rankedBefore :=
    pairwise_sortDesc diagAux_pairwise_idx
  have htake : (diagnose catalog symptoms topK).Pairwise rankedBefore :=
    hpair.sublist (List.take_sublist topK (sortDesc (diagAux symptoms 0 catalog)))
  refine ⟨?_, htake, ?_, ?_⟩
  · refine htake.imp ?_
    intro a b hab
    rcases hab with hlt | ⟨heq, _⟩
    · exact le_of_lt hlt
    · exact le_of_eq heq.symm
  · exact List.length_take_le topK _
  · intro c hc
    rcases mem_diagnose hc with ⟨j, d, hj, hcf⟩
    rcases candidateFor_fields hcf with ⟨hd, hi⟩
    refine ⟨?_, ?_⟩
    · rw [hi, hd]
      exact hj
    · rw [hd]
      exact candidateFor_symptoms_ne hcf

unseal Rat.mul Rat.add Rat.inv Rat.sub in
theorem rank_sorted_topk_nonempty_witness :
    [dOne][cOne.idx]? = some cOne.disease ∧ cOne.disease.symptoms ≠ [] :=
  (rank_sorted_topk_nonempty [dOne] ["abc"] 3).2.2.2 cOne (by decide)

/-- Claim C10: diagnose on an empty symptom list returns the empty
list, for every catalog and every topK. -/
theorem diagnose_empty_symptoms_nil (catalog : List Disease) (topK : Nat) :
    diagnose catalog [] topK = [] := by
  have haux : ∀ (i : Nat) (ds : List Disease), diagAux [] i ds = [] := by
    intro i ds
    induction ds generalizing i with
    | nil => rfl
    | cons d ds ih =>
      rw [diagAux]
      have hc : candidateFor i d [] = none := by
        unfold candidateFor
        simp
      rw [hc]
      exact ih (i + 1)
  rw [diagnose, haux]
  simp [sortDesc]

/-! Facts about the chat turn branches. -/

theorem remedyStep_lastDisease {catalog : List Disease} {s1 : ConvState} {stage : Stage}
    {last : Option String} {u : String} {out : ConvState × String}
    (h : remedyStep catalog s1 stage last u = some out) :
    out.1.lastDisease = s1.lastDisease := by
  unfold remedyStep at h
  split at h
  · cases last with
    | none => exact absurd h (by simp)
    | some l =>
      dsimp only at h
      rcases hg : get_disease_by_name catalog l with _ | info
      · rw [hg] at h
        exact absurd h (by simp)
      · rw [hg] at h
        dsimp only at h
        cases h
        rfl
  · exact absurd h (by simp)

theorem preventionStep_lastDisease {catalog : List Disease} {s1 : ConvState} {stage : Stage}
    {last : Option String} {u : String} {out : ConvState × String}
    (h : preventionStep catalog s1 stage last u = some out) :
    out.1.lastDisease = s1.lastDisease := by
  unfold preventionStep at h
  split at h
  · cases last with
    | none => exact absurd h (by simp)
    | some l =>
      dsimp only at h
      rcases hg : get_disease_by_name catalog l with _ | info
      · rw [hg] at h
        exact absurd h (by simp)
      · rw [hg] at h
        dsimp only at h
        cases h
        rfl
  · exact absurd h (by simp)

theorem rankStep_lastDisease {diag : List String → List Candidate} {s1 : ConvState}
    {ts : Nat} {u : String} {sy : List String} {out : ConvState × String}
    (h : rankStep diag s1 ts u sy = some out) :
    ∃ c, c ∈ diag sy ∧ out.1.lastDisease = some c.disease.name := by
  unfold rankStep at h
  split at h
  · rcases hd : diag sy with _ | ⟨top, rest⟩
    · rw [hd] at h
      exact absurd h (by simp)
    · rw [hd] at h
      dsimp only at h
      cases h
      exact ⟨top, List.mem_cons_self top rest, rfl⟩
  · exact absurd h (by simp)

theorem nameScan_mem {scan catalog : List Disease} {u : String} {info : Disease}
    (h : nameScan scan catalog u = some info) : info ∈ catalog := by
  induction scan with
  | nil => exact absurd h (by simp [nameScan])
  | cons d ds ih =>
    rw [nameScan] at h
    split at h
    · rcases hg : get_disease_by_name catalog d.name with _ | i2
      · rw [hg] at h
        exact ih h
      · rw [hg] at h
        dsimp only at h
        cases h
        unfold get_disease_by_name at hg
        exact List.mem_of_find?_eq_some hg
    · exact ih h

/-- The lastDisease invariant: whenever it is set, it is the name of a
disease present in the catalog. -/
def CatalogInv (catalog : List Disease) (s : ConvState) : Prop :=
  ∀ n, s.lastDisease = some n → ∃ d, d ∈ catalog ∧ d.name = n

/-- Claim C4: every chat turn preserves the invariant that lastDisease,
when set, names a disease present in the catalog. -/
theorem lastDisease_in_catalog_preserved (catalog : List Disease)
    (extract : String → List String) (ts : Nat) (s : ConvState) (raw : String)
    (h : CatalogInv catalog s) :
    CatalogInv catalog (chatTurn catalog extract ts s raw).1 := by
  unfold chatTurn chatTurnWith
  dsimp only
  split
  · exact h
  · split
    · next out heq =>
      have hl := remedyStep_lastDisease heq
      intro n hn
      exact h n (by rw [← hl]; exact hn)
    · split
      · next out heq =>
        have hl := preventionStep_lastDisease heq
        intro n hn
        exact h n (by rw [← hl]; exact hn)
      · split
        · next out heq =>
          rcases rankStep_lastDisease heq with ⟨c, hc, hl⟩
          intro n hn
          rw [hl] at hn
          cases hn
          exact ⟨c.disease, diagnose_disease_mem hc, rfl⟩
        · split
          · next info heq =>
            intro n hn
            dsimp only at hn
            cases hn
            exact ⟨info, nameScan_mem heq, rfl⟩
          · intro n hn
            exact h n hn

theorem lastDisease_in_catalog_preserved_witness :
    CatalogInv [dFlu] (chatTurn [dFlu] extractNone 0 freshState "hello").1 :=
  lastDisease_in_catalog_preserved [dFlu] extractNone 0 freshState "hello"
    (fun n hn => Option.noConfusion hn)

/-- Claim C7: disease lookup only depends on the lower-cased trimmed
query, so any two spellings of a name that agree after lower-casing
(in particular, any two letter casings of the same name) find the same
record. -/
theorem lookup_case_insensitive (catalog : List Disease) (n₁ n₂ : String)
    (h : pyLower n₁ = pyLower n₂) :
    get_disease_by_name catalog n₁ = get_disease_by_name catalog n₂ := by
  have hn : normalize n₁ = normalize n₂ := by rw [normalize, normalize, h]
  unfold get_disease_by_name
  rw [hn]

theorem lookup_case_insensitive_witness :
    get_disease_by_name [dFlu] "flu" = get_disease_by_name [dFlu] "Flu" :=
  lookup_case_insensitive [dFlu] "flu" "Flu" (by decide)

theorem remedyStep_none_of_stage {stage : Stage} (catalog : List Disease) (s1 : ConvState)
    (last : Option String) (u : String) (h : stage ≠ Stage.ask_remedies) :
    remedyStep catalog s1 stage last u = none := by
  unfold remedyStep
  exact if_neg (fun hc => h hc.1)

theorem remedyStep_none_of_not_affirm {u : String} (catalog : List Disease) (s1 : ConvState)
    (stage : Stage) (last : Option String) (h : u ∉ affirmatives) :
    remedyStep catalog s1 stage last u = none := by
  unfold remedyStep
  exact if_neg (fun hc => h hc.2)

theorem preventionStep_none_of_stage {stage : Stage} (catalog : List Disease) (s1 : ConvState)
    (last : Option String) (u : String) (h : stage ≠ Stage.ask_prevention) :
    preventionStep catalog s1 stage last u = none := by
  unfold preventionStep
  exact if_neg (fun hc => h hc.1)

theorem preventionStep_none_of_not_affirm {u : String} (catalog : List Disease)
    (s1 : ConvState) (stage : Stage) (last : Option String) (h : u ∉ affirmatives) :
    preventionStep catalog s1 stage last u = none := by
  unfold preventionStep
  exact if_neg (fun hc => h hc.2)

theorem rankStep_none_of_few {sy : List String} (diag : List String → List Candidate)
    (s1 : ConvState) (ts : Nat) (u : String) (h : ¬ 2 ≤ sy.length) :
    rankStep diag s1 ts u sy = none := by
  unfold rankStep
  exact if_neg h

theorem nameScan_none_of {scan : List Disease} {u : String} (catalog : List Disease)
    (h : ∀ d ∈ scan, strIncludes (normalize u) (normalize d.name) = false) :
    nameScan scan catalog u = none := by
  induction scan with
  | nil => rfl
  | cons d ds ih =>
    rw [nameScan]
    rw [if_neg (by rw [h d (List.mem_cons_self d ds)]; exact Bool.false_ne_true)]
    exact ih (fun d2 h2 => h d2 (List.mem_cons_of_mem d h2))

/-- The fall-through outcome: on a non-empty input with fewer than two
extracted symptoms and no disease name mentioned, whenever the turn is
not an affirmative confirmation turn (the stage is diagnosis or done,
or the input is not an affirmative token), the turn replies with the
could-not-detect prompt and sets the stage to diagnosis, leaving
lastDisease and the history untouched. -/
theorem chatTurnWith_prompt (catalog : List Disease)
    (diag : List String → List Candidate) (extract : String → List String)
    (ts : Nat) (s : ConvState) (raw : String)
    (hguard : s.stage = Stage.diagnosis ∨ s.stage = Stage.done
      ∨ pyLower (pyStrip raw) ∉ affirmatives)
    (hlen : ¬ 2 ≤ (extract (pyLower (pyStrip raw))).length)
    (hname : ∀ d ∈ catalog,
      strIncludes (normalize (pyLower (pyStrip raw))) (normalize d.name) = false)
    (hne : ¬ pyLower (pyStrip raw) = "") :
    chatTurnWith catalog diag extract ts s raw =
      ({ s with
          stage := Stage.diagnosis
          ctx := (s.ctx ++ [("user", pyLower (pyStrip raw))])
            ++ [("assistant", noDetectPrompt)] }, noDetectPrompt) := by
  unfold chatTurnWith
  dsimp only
  rw [if_neg hne]
  have hrem : ∀ s1 : ConvState,
      remedyStep catalog s1 s.stage s.lastDisease (pyLower (pyStrip raw)) = none := by
    intro s1
    rcases hguard with h | h | h
    · exact remedyStep_none_of_stage catalog s1 s.lastDisease _ (by rw [h]; decide)
    · exact remedyStep_none_of_stage catalog s1 s.lastDisease _ (by rw [h]; decide)
    · exact remedyStep_none_of_not_affirm catalog s1 s.stage s.lastDisease h
  have hprev : ∀ s1 : ConvState,
      preventionStep catalog s1 s.stage s.lastDisease (pyLower (pyStrip raw)) = none := by
    intro s1
    rcases hguard with h | h | h
    · exact preventionStep_none_of_stage catalog s1 s.lastDisease _ (by rw [h]; decide)
    · exact preventionStep_none_of_stage catalog s1 s.lastDisease _ (by rw [h]; decide)
    · exact preventionStep_none_of_not_affirm catalog s1 s.stage s.lastDisease h
  rw [hrem, hprev]
  rw [rankStep_none_of_few diag _ ts _ hlen]
  rw [nameScan_none_of catalog hname]

/-- The diagnosis-stage fall-through outcome: with fewer than two
extracted symptoms, no disease name mentioned in the input and a
non-empty input, the turn replies with the could-not-detect prompt and
sets the stage to diagnosis, leaving lastDisease and the history
untouched. -/
theorem chatTurnWith_fallback (catalog : List Disease)
    (diag : List String → List Candidate) (extract : String → List String)
    (ts : Nat) (s : ConvState) (raw : String)
    (hstage : s.stage = Stage.diagnosis)
    (hlen : ¬ 2 ≤ (extract (pyLower (pyStrip raw))).length)
    (hname : ∀ d ∈ catalog,
      strIncludes (normalize (pyLower (pyStrip raw))) (normalize d.name) = false)
    (hne : ¬ pyLower (pyStrip raw) = "") :
    chatTurnWith catalog diag extract ts s raw =
      ({ s with
          stage := Stage.diagnosis
          ctx := (s.ctx ++ [("user", pyLower (pyStrip raw))])
            ++ [("assistant", noDetectPrompt)] }, noDetectPrompt) :=
  chatTurnWith_prompt catalog diag extract ts s raw (Or.inl hstage) hlen hname hne

/-- With fewer than two extracted symptoms the turn never calls the
ranking function: its outcome is the same for every ranking function,
in every conversation state and for every input. -/
theorem chatTurnWith_rank_independent (catalog : List Disease)
    (diag : List String → List Candidate) (extract : String → List String)
    (ts : Nat) (s : ConvState) (raw : String)
    (hlen : ¬ 2 ≤ (extract (pyLower (pyStrip raw))).length) :
    chatTurnWith catalog diag extract ts s raw
      = chatTurnWith catalog (fun _ => []) extract ts s raw := by
  unfold chatTurnWith
  dsimp only
  by_cases hemp : pyLower (pyStrip raw) = ""
  · rw [if_pos hemp, if_pos hemp]
  · rw [if_neg hemp, if_neg hemp]
    rcases hr : remedyStep catalog
        { s with ctx := s.ctx ++ [("user", pyLower (pyStrip raw))] }
        s.stage s.lastDisease (pyLower (pyStrip raw)) with _ | out
    · dsimp only
      rcases hp : preventionStep catalog
          { s with ctx := s.ctx ++ [("user", pyLower (pyStrip raw))] }
          s.stage s.lastDisease (pyLower (pyStrip raw)) with _ | out2
      · dsimp only
        rw [rankStep_none_of_few diag _ ts _ hlen]
        rw [rankStep_none_of_few (fun _ => []) _ ts _ hlen]
      · rfl
    · rfl

/-- Claim C3, corrected: when fewer than minRequired (2) symptoms are
extracted, the turn performs no ranking work at all — its outcome is
identical for every ranking function, in every stage — and no
exception is surfaced.  Whenever the turn is moreover not an
affirmative confirmation turn (stage diagnosis or done, or a
non-affirmative input) and the input does not mention a catalog
disease name, the failure is surfaced as the recoverable more-detail
prompt (or the empty-input prompt), the stage ends at diagnosis
(unchanged on empty input) and lastDisease is unchanged. -/
theorem insufficient_symptoms_no_scoring (catalog : List Disease)
    (diag : List String → List Candidate) (extract : String → List String)
    (ts : Nat) (s : ConvState) (raw : String)
    (hlen : (extract (pyLower (pyStrip raw))).length < 2) :
    chatTurnWith catalog diag extract ts s raw
        = chatTurnWith catalog (fun _ => []) extract ts s raw
      ∧ ((s.stage = Stage.diagnosis ∨ s.stage = Stage.done
            ∨ pyLower (pyStrip raw) ∉ affirmatives) →
         (∀ d ∈ catalog,
            strIncludes (normalize (pyLower (pyStrip raw))) (normalize d.name) = false) →
         ((chatTurnWith catalog diag extract ts s raw).1.stage
              = (if pyLower (pyStrip raw) = "" then s.stage else Stage.diagnosis)
           ∧ (chatTurnWith catalog diag extract ts s raw).1.lastDisease = s.lastDisease
           ∧ ((chatTurnWith catalog diag extract ts s raw).2 = emptyPrompt
             ∨ (chatTurnWith catalog diag extract ts s raw).2 = noDetectPrompt))) := by
  have hlen2 : ¬ 2 ≤ (extract (pyLower (pyStrip raw))).length := by omega
  refine ⟨chatTurnWith_rank_independent catalog diag extract ts s raw hlen2, ?_⟩
  intro hguard hname
  by_cases hemp : pyLower (pyStrip raw) = ""
  · have hval : chatTurnWith catalog diag extract ts s raw = (s, emptyPrompt) := by
      unfold chatTurnWith
      dsimp only
      rw [if_pos hemp]
    rw [hval, if_pos hemp]
    exact ⟨rfl, rfl, Or.inl rfl⟩
  · have hval := chatTurnWith_prompt catalog diag extract ts s raw hguard hlen2 hname hemp
    rw [hval, if_neg hemp]
    exact ⟨rfl, rfl, Or.inr rfl⟩

theorem insufficient_symptoms_no_scoring_witness :
    chatTurnWith [dFlu] (fun _ => [cOne]) extractNone 0 freshState "it hurts"
        = chatTurnWith [dFlu] (fun _ => []) extractNone 0 freshState "it hurts"
      ∧ (chatTurnWith [dFlu] (fun _ => [cOne]) extractNone 0 freshState "it hurts").1.stage
          = (if pyLower (pyStrip "it hurts") = "" then freshState.stage
            else Stage.diagnosis)
      ∧ (chatTurnWith [dFlu] (fun _ => [cOne]) extractNone 0
            freshState "it hurts").1.lastDisease = freshState.lastDisease
      ∧ ((chatTurnWith [dFlu] (fun _ => [cOne]) extractNone 0 freshState "it hurts").2
            = emptyPrompt
        ∨ (chatTurnWith [dFlu] (fun _ => [cOne]) extractNone 0 freshState "it hurts").2
            = noDetectPrompt) := by
  have h := insufficient_symptoms_no_scoring [dFlu] (fun _ => [cOne]) extractNone 0
    freshState "it hurts" (by decide)
  have h2 := h.2 (Or.inl rfl) (by decide)
  exact ⟨h.1, h2.1, h2.2.1, h2.2.2⟩

/-- Claim C3 as stated is false on the code: with zero extracted
symptoms (fewer than minRequired) the turn on input "flu" is answered
by the direct disease-name match, not by a prompt for more detail. -/
theorem insufficient_symptoms_claim_false :
    (extractNone (pyLower (pyStrip "flu"))).length < 2
      ∧ (chatTurn [dFlu] extractNone 0 freshState "flu").2
          = "You mentioned **Flu**. Would you like remedies for it?"
      ∧ (chatTurn [dFlu] extractNone 0 freshState "flu").2 ≠ noDetectPrompt
      ∧ (chatTurn [dFlu] extractNone 0 freshState "flu").2 ≠ emptyPrompt := by
  refine ⟨by decide, by decide, by decide, by decide⟩

/-- Claim C8: in the diagnosis stage, when the extractor finds nothing
and no catalog disease name occurs in the input, the turn handler
returns normally with a recoverable prompt: the empty-input prompt on
empty input, the could-not-detect prompt otherwise; the stage is
diagnosis and lastDisease is unchanged. -/
theorem degrades_to_prompt (catalog : List Disease) (extract : String → List String)
    (ts : Nat) (s : ConvState) (raw : String)
    (hstage : s.stage = Stage.diagnosis)
    (hext : extract (pyLower (pyStrip raw)) = [])
    (hname : ∀ d ∈ catalog,
      strIncludes (normalize (pyLower (pyStrip raw))) (normalize d.name) = false) :
    (chatTurn catalog extract ts s raw).1.stage = Stage.diagnosis
      ∧ (chatTurn catalog extract ts s raw).1.lastDisease = s.lastDisease
      ∧ ((pyLower (pyStrip raw) = ""
            ∧ (chatTurn catalog extract ts s raw).2 = emptyPrompt)
        ∨ (pyLower (pyStrip raw) ≠ ""
            ∧ (chatTurn catalog extract ts s raw).2 = noDetectPrompt)) := by
  by_cases hemp : pyLower (pyStrip raw) = ""
  · have hval : chatTurn catalog extract ts s raw = (s, emptyPrompt) := by
      unfold chatTurn chatTurnWith
      dsimp only
      rw [if_pos hemp]
    rw [hval]
    exact ⟨hstage, rfl, Or.inl ⟨hemp, rfl⟩⟩
  · have hlen2 : ¬ 2 ≤ (extract (pyLower (pyStrip raw))).length := by
      rw [hext]
      decide
    have hval := chatTurnWith_fallback catalog (fun syms => diagnose catalog syms 3)
      extract ts s raw hstage hlen2 hname hemp
    rw [chatTurn, hval]
    exact ⟨rfl, rfl, Or.inr ⟨hemp, rfl⟩⟩

theorem degrades_to_prompt_witness :
    (chatTurn [dFlu] extractNone 0 freshState "").1.stage = Stage.diagnosis
      ∧ (chatTurn [dFlu] extractNone 0 freshState "").1.lastDisease
          = freshState.lastDisease
      ∧ ((pyLower (pyStrip "") = ""
            ∧ (chatTurn [dFlu] extractNone 0 freshState "").2 = emptyPrompt)
        ∨ (pyLower (pyStrip "") ≠ ""
            ∧ (chatTurn [dFlu] extractNone 0 freshState "").2 = noDetectPrompt)) :=
  degrades_to_prompt [dFlu] extractNone 0 freshState "" rfl rfl (by decide)

/-- A conversation waiting for a remedies confirmation. -/
def stateRem : ConvState :=
  { stage := Stage.ask_remedies, lastDisease := some "Flu", ctx := [], histLog := [] }

/-- Claim C6, corrected: a turn whose normalized input is non-empty and
not an affirmative token behaves exactly as the same turn started in
the diagnosis stage — the non-affirmative input is re-processed through
symptom extraction, ranking and the disease-name scan.  (An empty input
is answered by the input guard before any stage handling and keeps the
stage, see the counterexample.) -/
theorem nonaffirmative_falls_through (catalog : List Disease)
    (extract : String → List String) (ts : Nat) (s : ConvState) (raw : String)
    (h1 : s.stage = Stage.ask_remedies ∨ s.stage = Stage.ask_prevention)
    (h2 : pyLower (pyStrip raw) ∉ affirmatives)
    (h3 : pyLower (pyStrip raw) ≠ "") :
    chatTurn catalog extract ts s raw
      = chatTurn catalog extract ts { s with stage := Stage.diagnosis } raw := by
  unfold chatTurn chatTurnWith
  dsimp only
  rw [if_neg h3]
  rw [remedyStep_none_of_not_affirm catalog _ s.stage s.lastDisease h2]
  rw [remedyStep_none_of_not_affirm catalog _ Stage.diagnosis s.lastDisease h2]
  dsimp only
  rw [preventionStep_none_of_not_affirm catalog _ s.stage s.lastDisease h2]
  rw [preventionStep_none_of_not_affirm catalog _ Stage.diagnosis s.lastDisease h2]
  rw [if_neg h3]
  dsimp only
  rfl

theorem nonaffirmative_falls_through_witness :
    chatTurn [dFlu] extractNone 0 stateRem "I also have a rash"
      = chatTurn [dFlu] extractNone 0
          { stateRem with stage := Stage.diagnosis } "I also have a rash" :=
  nonaffirmative_falls_through [dFlu] extractNone 0 stateRem "I also have a rash"
    (Or.inl rfl) (by decide) (by decide)

/-- Claim C6 as stated is false on the code for the empty input: an
empty string is not an affirmative token, yet the turn is answered by
the pre-stage input guard, no diagnosis-stage handling runs, and the
conversation keeps the ask_remedies stage instead of being re-evaluated
(the same turn started in the diagnosis stage ends in diagnosis). -/
theorem nonaffirmative_claim_false_on_empty :
    ("" ∉ affirmatives)
      ∧ (chatTurn [dFlu] extractNone 0 stateRem "").1.stage = Stage.ask_remedies
      ∧ (chatTurn [dFlu] extractNone 0
          { stateRem with stage := Stage.diagnosis } "").1.stage = Stage.diagnosis
      ∧ chatTurn [dFlu] extractNone 0 stateRem ""
          ≠ chatTurn [dFlu] extractNone 0
              { stateRem with stage := Stage.diagnosis } "" := by
  refine ⟨by decide, by decide, by decide, by decide⟩

/-! Substring facts used for the remedies reply. -/

theorem toNat_ofNat_valid (n : Nat) (h : n.isValidChar) : (Char.ofNat n).toNat = n := by
  simp [Char.ofNat, h, Char.ofNatAux, Char.toNat, UInt32.toNat, UInt32.ofNat']

theorem lowerChar_toNat (c : Char) :
    (lowerChar c).toNat = if 65 ≤ c.toNat ∧ c.toNat ≤ 90 then c.toNat + 32 else c.toNat := by
  by_cases h : 65 ≤ c.toNat ∧ c.toNat ≤ 90
  · rw [if_pos h]
    have h1 : lowerChar c = Char.ofNat (c.toNat + 32) := by
      simp only [lowerChar, Char.toLower]
      rw [if_pos ⟨h.1, h.2⟩]
    rw [h1]
    exact toNat_ofNat_valid _ (Or.inl (by omega))
  · rw [if_neg h]
    have h1 : lowerChar c = c := by
      simp only [lowerChar, Char.toLower]
      rw [if_neg (fun hc => h ⟨hc.1, hc.2⟩)]
    rw [h1]

theorem lowerChar_of_not_upper {c : Char} (h : ¬ (65 ≤ c.toNat ∧ c.toNat ≤ 90)) :
    lowerChar c = c := by
  simp only [lowerChar, Char.toLower]
  rw [if_neg (fun hc => h ⟨hc.1, hc.2⟩)]

theorem lowerChar_idem (c : Char) : lowerChar (lowerChar c) = lowerChar c := by
  by_cases h : 65 ≤ c.toNat ∧ c.toNat ≤ 90
  · have ht : (lowerChar c).toNat = c.toNat + 32 := by rw [lowerChar_toNat, if_pos h]
    exact lowerChar_of_not_upper (by rw [ht]; omega)
  · have h0 : lowerChar c = c := lowerChar_of_not_upper h
    rw [h0, h0]

theorem pyIsSpace_eq_false {c : Char} (h : 33 ≤ c.toNat) : pyIsSpace c = false := by
  rw [pyIsSpace]
  simp only [Bool.or_eq_false_iff, decide_eq_false_iff_not]
  omega

theorem pyIsSpace_lowerChar (c : Char) : pyIsSpace (lowerChar c) = pyIsSpace c := by
  by_cases h : 65 ≤ c.toNat ∧ c.toNat ≤ 90
  · have ht : (lowerChar c).toNat = c.toNat + 32 := by rw [lowerChar_toNat, if_pos h]
    rw [pyIsSpace_eq_false (by rw [ht]; omega), pyIsSpace_eq_false (by omega)]
  · rw [lowerChar_of_not_upper h]

theorem dropWhile_head_false {p : Char → Bool} :
    ∀ {l : List Char} {c : Char}, (l.dropWhile p).head? = some c → p c = false := by
  intro l
  induction l with
  | nil => intro c hc; exact absurd hc (by simp)
  | cons a t ih =>
    intro c hc
    rw [List.dropWhile_cons] at hc
    by_cases hp : p a
    · rw [if_pos hp] at hc
      exact ih hc
    · rw [if_neg hp] at hc
      cases hc
      exact Bool.eq_false_iff.mpr hp

theorem dropWhile_eq_self_of_head {p : Char → Bool} :
    ∀ {l : List Char}, (∀ c, l.head? = some c → p c = false) → l.dropWhile p = l := by
  intro l h
  cases l with
  | nil => rfl
  | cons a t =>
    rw [List.dropWhile_cons, if_neg (by rw [h a rfl]; exact Bool.false_ne_true)]

theorem dropWhile_idem (p : Char → Bool) (l : List Char) :
    (l.dropWhile p).dropWhile p = l.dropWhile p :=
  dropWhile_eq_self_of_head (fun _ hc => dropWhile_head_false hc)

theorem dropWhile_getLast? {p : Char → Bool} :
    ∀ {l : List Char}, l.dropWhile p ≠ [] → (l.dropWhile p).getLast? = l.getLast? := by
  intro l
  induction l with
  | nil => intro h; exact absurd rfl h
  | cons a t ih =>
    intro h
    rw [List.dropWhile_cons] at h ⊢
    by_cases hp : p a
    · rw [if_pos hp] at h ⊢
      have ht : t ≠ [] := by
        intro hnil
        rw [hnil] at h
        exact h rfl
      rw [ih h]
      cases t with
      | nil => exact absurd rfl ht
      | cons b t2 => rw [List.getLast?_cons_cons]
    · rw [if_neg hp]

theorem stripL_idem (l : List Char) : stripL (stripL l) = stripL l := by
  by_cases hu : (((l.dropWhile pyIsSpace).reverse).dropWhile pyIsSpace) = []
  · have h0 : stripL l = [] := by rw [stripL, hu]; rfl
    rw [h0]
    rfl
  · have hhead : ∀ c, (stripL l).head? = some c → pyIsSpace c = false := by
      intro c hc
      rw [show stripL l = ((l.dropWhile pyIsSpace).reverse.dropWhile pyIsSpace).reverse from rfl,
        List.head?_reverse, dropWhile_getLast? hu, List.getLast?_reverse] at hc
      exact dropWhile_head_false hc
    calc stripL (stripL l)
        = (((stripL l).dropWhile pyIsSpace).reverse.dropWhile pyIsSpace).reverse := rfl
      _ = ((stripL l).reverse.dropWhile pyIsSpace).reverse := by
            rw [dropWhile_eq_self_of_head hhead]
      _ = ((((l.dropWhile pyIsSpace).reverse.dropWhile pyIsSpace).reverse.reverse).dropWhile
            pyIsSpace).reverse := rfl
      _ = (((l.dropWhile pyIsSpace).reverse.dropWhile pyIsSpace).dropWhile pyIsSpace).reverse := by
            rw [List.reverse_reverse]
      _ = ((l.dropWhile pyIsSpace).reverse.dropWhile pyIsSpace).reverse := by
            rw [dropWhile_idem]
      _ = stripL l := rfl

theorem stripL_map_lower (l : List Char) :
    stripL (l.map lowerChar) = (stripL l).map lowerChar := by
  have hcomp : (pyIsSpace ∘ lowerChar) = pyIsSpace := funext pyIsSpace_lowerChar
  rw [stripL, stripL]
  rw [List.dropWhile_map, hcomp]
  rw [← List.map_reverse]
  rw [List.dropWhile_map, hcomp]
  rw [← List.map_reverse]

theorem lowerL_idem (l : List Char) :
    (l.map lowerChar).map lowerChar = l.map lowerChar := by
  rw [List.map_map]
  have : (lowerChar ∘ lowerChar) = lowerChar := funext lowerChar_idem
  rw [this]

theorem normalize_normalize (s : String) : normalize (normalize s) = normalize s := by
  show pyStrip (pyLower (pyStrip (pyLower s))) = pyStrip (pyLower s)
  unfold pyStrip pyLower
  dsimp only
  congr 1
  rw [← stripL_map_lower, lowerL_idem, stripL_idem]

/-- Claim C9: normalize (lower-case and trim) is idempotent; in
particular it is idempotent on every entry of the derived symptom
vocabulary (it is in fact idempotent on every string, and there is no
synonym table in chatbot.py). -/
theorem normalize_idempotent_on_vocab (catalog : List Disease) (s : String)
    (h : s ∈ vocabulary catalog) :
    normalize (normalize s) = normalize s :=
  normalize_normalize s

theorem normalize_idempotent_on_vocab_witness :
    "abcdef" ∈ vocabulary [dOne]
      ∧ normalize (normalize "abcdef") = normalize "abcdef" :=
  ⟨by decide, normalize_idempotent_on_vocab [dOne] "abcdef" (by decide)⟩

end HealthChat
